import Mathlib

/-!
A verification model of the bounded subscription relay in
`substrate/client/rpc/src/utils.rs` (`BoundedVecDeque`, `pipe_from_stream`,
`inner_pipe_from_stream`).

The async select loops are embedded as deterministic functions of

* the list of items the producer stream will yield, and
* a schedule: one `Event` per await point, saying which of the concurrently
  awaited futures is ready at that point (handshake resolution, close signal,
  completion of the in-flight `sink.send`, readiness of the next stream item).

The polling order of the nested `future::select` calls in the source is
mirrored exactly: in `pipe_from_stream` the accept future is polled before the
stream; in `inner_pipe_from_stream` the `closed` future is polled first, then
the in-flight send future, then the stream.  `sink.send` is lazily started:
the message counts as issued to the sink the first time the send future is
polled (an async block body does not run before its first poll), which is
recorded by a flag on the in-flight slot.
-/

namespace RpcUtils

/-- `DEFAULT_BUF_SIZE` from the source. -/
def DEFAULT_BUF_SIZE : Nat := 16

/-- `BoundedVecDeque` from the source: a `VecDeque` plus a maximum capacity. -/
structure BoundedVecDeque (T : Type) where
  inner : List T
  max_cap : Nat
deriving DecidableEq

namespace BoundedVecDeque

/-- `BoundedVecDeque::new`: empty queue with capacity `DEFAULT_BUF_SIZE`. -/
def new (T : Type) : BoundedVecDeque T :=
  ⟨[], DEFAULT_BUF_SIZE⟩

/-- `BoundedVecDeque::push_back`: `none` models the Rust `Err(())` returned
when `len >= max_cap`; otherwise the queue with the item appended. -/
def push_back (q : BoundedVecDeque T) (item : T) : Option (BoundedVecDeque T) :=
  if q.max_cap ≤ q.inner.length then none
  else some ⟨q.inner ++ [item], q.max_cap⟩

/-- `BoundedVecDeque::pop_front`. -/
def pop_front (q : BoundedVecDeque T) : Option (T × BoundedVecDeque T) :=
  match q.inner with
  | [] => none
  | x :: xs => some (x, ⟨xs, q.max_cap⟩)

end BoundedVecDeque

/-- The return sites of the relay, named by the spec's terminal reasons.
`endedBeforeAccept` is the `pipe_from_stream` return taken when the stream
yields `None` before the handshake resolves (the catch-all `_ => return` arm);
`fatal` is a drain-phase send failure; `dropped` is a rejected `push_back`. -/
inductive Outcome where
  | dropped
  | cancelled
  | completed
  | fatal
  | endedBeforeAccept
deriving DecidableEq

/-- Readiness of the awaited futures at one await point.  `accept`: the
handshake future resolves (`some true` yields the sink, `some false` is the
error arm).  `closed`: the `sink.closed()` future is ready.  `send`: the
in-flight `sink.send` future completes (`some true` is `Ok`, `some false` is
`Err`).  `item`: `stream.next()` is ready (with the next item, or with `None`
when the stream is exhausted). -/
structure Event where
  accept : Option Bool
  closed : Bool
  send : Option Bool
  item : Bool
deriving DecidableEq

/-- Event: only the producer stream is ready. -/
def itemEv : Event := ⟨none, false, none, true⟩

/-- Event: the handshake resolves with a sink. -/
def acceptEv : Event := ⟨some true, false, none, false⟩

/-- Event: the in-flight send completes successfully. -/
def sendOkEv : Event := ⟨none, false, some true, false⟩

/-- Event: the in-flight send completes with an error. -/
def sendErrEv : Event := ⟨none, false, some false, false⟩

/-- Event: the close signal fires. -/
def closeEv : Event := ⟨none, true, none, false⟩

/-- Event: spurious wakeup, nothing is ready. -/
def idleEv : Event := ⟨none, false, none, false⟩

/-- Event: the close signal fires and, at the same point, a pending send
completes successfully. -/
def sendOkClosedEv : Event := ⟨none, true, some true, false⟩

/-- The relay's state.  `buf` is the `BoundedVecDeque`; `stream` the items the
producer has yet to yield; `inflight` the argument of the in-flight send
future, with a flag telling whether the future has been polled at least once
(i.e. whether `sink.send` has actually been invoked); `sentRev` the items
issued to `sink.send`, most recent first; `dropped` the number of
`register_dropped` metric increments; `gotSink` whether the handshake has
resolved and `inner_pipe_from_stream` was entered. -/
structure RelayState (T : Type) where
  buf : BoundedVecDeque T
  stream : List T
  inflight : Option (T × Bool)
  sentRev : List T
  dropped : Nat
  gotSink : Bool
deriving DecidableEq

/-- Top of the `inner_pipe_from_stream` loop: when `next_fut.is_terminated()`,
pop the oldest buffered item and set its send future up (not yet polled). -/
def popIntoFlight (s : RelayState T) : RelayState T :=
  match s.inflight, s.buf.pop_front with
  | none, some (x, q) => { s with buf := q, inflight := some (x, false) }
  | _, _ => s

/-- Poll the in-flight send future once: the first poll runs the async block
and hence invokes `sink.send`, so the item is recorded as issued. -/
def pollFlight (s : RelayState T) : RelayState T :=
  match s.inflight with
  | some (x, false) => { s with inflight := some (x, true), sentRev := x :: s.sentRev }
  | _ => s

/-- Whether the select's send branch fires: there is an in-flight send future
(`next_fut` not terminated) and this event completes it. -/
def sendFires (s : RelayState T) (e : Event) : Bool :=
  s.inflight.isSome && e.send.isSome

/-- Await a send future to completion, as the drain code does: scan the
schedule for the first event at which the send resolves.  The `closed` field
is not consulted - the drain loop in the source never polls `closed`. -/
def takeSend : List Event → Option (Bool × List Event)
  | [] => none
  | e :: es =>
    match e.send with
    | some r => some (r, es)
    | none => takeSend es

/-- The `while let Some(v) = buf.pop_front()` drain loop: send every remaining
buffered item in FIFO order, awaiting each send; a send error returns
immediately (`fatal`).  The first argument is the queue contents. -/
def drainGo : List T → List Event → RelayState T → Option Outcome × RelayState T
  | [], _, s => (some Outcome.completed, s)
  | v :: vs, es, s =>
    let s1 : RelayState T := { s with buf := ⟨vs, s.buf.max_cap⟩, sentRev := v :: s.sentRev }
    match takeSend es with
    | none => (none, s1)
    | some (true, es') => drainGo vs es' s1
    | some (false, _) => (some Outcome.fatal, s1)

/-- The stream-finished branch of `inner_pipe_from_stream`: if a send is still
in flight, await it (`pending_fut.await.is_err()` returns), then drain the
queue.  The close signal is not polled anywhere in this phase. -/
def drainPending (es : List Event) (s : RelayState T) : Option Outcome × RelayState T :=
  match s.inflight with
  | none => drainGo s.buf.inner es s
  | some _ =>
    let s1 := pollFlight s
    match takeSend es with
    | none => (none, s1)
    | some (true, es') => drainGo s1.buf.inner es' { s1 with inflight := none }
    | some (false, _) => (some Outcome.fatal, { s1 with inflight := none })

/-- The `inner_pipe_from_stream` loop.  Each schedule event drives one
iteration of the select; an empty schedule means the relay is still running
(outcome `none`).  Branch priority mirrors the nested
`select(closed, select(next_fut, next_item))`: `closed` wins, then the send
future, then the stream.  Note the send branch discards the send result. -/
def inner_pipe_from_stream : List Event → RelayState T → Option Outcome × RelayState T
  | [], s => (none, s)
  | e :: es, s =>
    let s1 := popIntoFlight s
    if e.closed then (some Outcome.cancelled, s1)
    else
      let s2 := pollFlight s1
      if sendFires s2 e then inner_pipe_from_stream es { s2 with inflight := none }
      else if e.item then
        match s2.stream with
        | v :: rest =>
          match s2.buf.push_back v with
          | none => (some Outcome.dropped, { s2 with dropped := s2.dropped + 1 })
          | some q => inner_pipe_from_stream es { s2 with buf := q, stream := rest }
        | [] => drainPending es s2
      else inner_pipe_from_stream es s2

/-- The pre-handshake loop of `pipe_from_stream`: poll the accept future
(first) against the stream; buffer early items, drop on overflow, return on
accept error or stream end, and break into `inner_pipe_from_stream` once the
handshake yields the sink. -/
def acceptLoop : List Event → RelayState T → Option Outcome × RelayState T
  | [], s => (none, s)
  | e :: es, s =>
    match e.accept with
    | some true => inner_pipe_from_stream es { s with gotSink := true }
    | some false => (some Outcome.cancelled, s)
    | none =>
      if e.item then
        match s.stream with
        | v :: rest =>
          match s.buf.push_back v with
          | none => (some Outcome.dropped, { s with dropped := s.dropped + 1 })
          | some q => acceptLoop es { s with buf := q, stream := rest }
        | [] => (some Outcome.endedBeforeAccept, s)
      else acceptLoop es s

/-- The initial relay state: fresh queue, full stream ahead, nothing sent. -/
def initState (produced : List T) : RelayState T :=
  ⟨BoundedVecDeque.new T, produced, none, [], 0, false⟩

/-- `pipe_from_stream`: run the whole relay on a schedule. -/
def pipe_from_stream (events : List Event) (produced : List T) :
    Option Outcome × RelayState T :=
  acceptLoop events (initState produced)

/-- Items of the in-flight slot whose send future has never been polled, so
`sink.send` has not been invoked for them. -/
def unissued : Option (T × Bool) → List T
  | some (x, false) => [x]
  | _ => []

/-- Force the close signal to be ready at an await point (used to show the
drain phase never looks at it). -/
def withClose (e : Event) : Event := ⟨e.accept, true, e.send, e.item⟩

/-- Every produced item is in exactly one place: already issued to the sink,
popped but not yet issued, buffered, or not yet yielded by the producer.
The concatenation is invariant under every relay step. -/
def histPend (s : RelayState T) : List T :=
  s.sentRev.reverse ++ (unissued s.inflight ++ (s.buf.inner ++ s.stream))

/-- A concrete mid-relay state: three items buffered, producer exhausted,
no send in flight. -/
def drainDemoState : RelayState Nat :=
  ⟨⟨[1, 2, 3], 16⟩, [], none, [7], 0, true⟩

/-- A concrete mid-relay state: a send of item 9 in flight (already issued),
nothing buffered. -/
def flightDemoState : RelayState Nat :=
  ⟨⟨[], 16⟩, [], some (9, true), [9], 0, true⟩

/-- A concrete mid-relay state: one item buffered, no send in flight. -/
def closeDemoState : RelayState Nat :=
  ⟨⟨[4], 16⟩, [9], none, [], 0, true⟩

/-! Basic facts about the bounded queue. -/

theorem push_back_full (q : BoundedVecDeque T) (x : T)
    (h : q.max_cap ≤ q.inner.length) : q.push_back x = none := by
  simp [BoundedVecDeque.push_back, h]

theorem push_back_some {q : BoundedVecDeque T} {x : T} {q' : BoundedVecDeque T}
    (h : q.push_back x = some q') :
    q'.inner = q.inner ++ [x] ∧ q'.max_cap = q.max_cap ∧ q.inner.length < q.max_cap := by
  unfold BoundedVecDeque.push_back at h
  split at h
  · exact absurd h (by simp)
  · rename_i hlt
    injection h with h
    subst h
    exact ⟨rfl, rfl, by omega⟩

theorem pop_front_some {q : BoundedVecDeque T} {x : T} {q' : BoundedVecDeque T}
    (h : q.pop_front = some (x, q')) :
    q.inner = x :: q'.inner ∧ q'.max_cap = q.max_cap := by
  unfold BoundedVecDeque.pop_front at h
  split at h
  · exact absurd h (by simp)
  · rename_i y ys hq
    injection h with h
    rw [hq]
    cases h
    exact ⟨rfl, rfl⟩

/-! Component facts about the two polling helpers. -/

theorem popIntoFlight_sentRev (s : RelayState T) : (popIntoFlight s).sentRev = s.sentRev := by
  unfold popIntoFlight
  split <;> rfl

theorem popIntoFlight_dropped (s : RelayState T) : (popIntoFlight s).dropped = s.dropped := by
  unfold popIntoFlight
  split <;> rfl

theorem popIntoFlight_gotSink (s : RelayState T) : (popIntoFlight s).gotSink = s.gotSink := by
  unfold popIntoFlight
  split <;> rfl

theorem popIntoFlight_stream (s : RelayState T) : (popIntoFlight s).stream = s.stream := by
  unfold popIntoFlight
  split <;> rfl

theorem popIntoFlight_max_cap (s : RelayState T) :
    (popIntoFlight s).buf.max_cap = s.buf.max_cap := by
  unfold popIntoFlight
  split
  · rename_i x q _ hpop
    exact (pop_front_some hpop).2
  · rfl

theorem popIntoFlight_len_le (s : RelayState T) :
    (popIntoFlight s).buf.inner.length ≤ s.buf.inner.length := by
  unfold popIntoFlight
  split
  · rename_i x q _ hpop
    have := (pop_front_some hpop).1
    simp [this]
  · exact Nat.le_refl _

theorem pollFlight_buf (s : RelayState T) : (pollFlight s).buf = s.buf := by
  unfold pollFlight
  split <;> rfl

theorem pollFlight_stream (s : RelayState T) : (pollFlight s).stream = s.stream := by
  unfold pollFlight
  split <;> rfl

theorem pollFlight_dropped (s : RelayState T) : (pollFlight s).dropped = s.dropped := by
  unfold pollFlight
  split <;> rfl

theorem pollFlight_gotSink (s : RelayState T) : (pollFlight s).gotSink = s.gotSink := by
  unfold pollFlight
  split <;> rfl

theorem unissued_pollFlight (s : RelayState T) : unissued (pollFlight s).inflight = [] := by
  unfold pollFlight
  split
  · rfl
  · rename_i h
    unfold unissued
    match hs : s.inflight with
    | none => rfl
    | some (x, true) => rfl
    | some (x, false) => exact absurd rfl (hs ▸ h x)

/-! The history-plus-pending decomposition is preserved by each helper. -/

theorem histPend_popIntoFlight (s : RelayState T) : histPend (popIntoFlight s) = histPend s := by
  unfold popIntoFlight
  split
  · rename_i x q hin hpop
    have hq := pop_front_some hpop
    simp [histPend, unissued, hin, hq.1]
  · rfl

theorem histPend_pollFlight (s : RelayState T) : histPend (pollFlight s) = histPend s := by
  unfold pollFlight
  split
  · rename_i x hin
    simp [histPend, unissued, hin]
  · rfl

theorem unissued_none : unissued (none : Option (T × Bool)) = [] := rfl

theorem histPend_clear_inflight (s : RelayState T) (h : unissued s.inflight = []) :
    histPend ({ s with inflight := none } : RelayState T) = histPend s := by
  simp [histPend, unissued_none, h]

/-! Facts about the drain phase. -/

theorem drainGo_max_cap : ∀ (vs : List T) (es : List Event) (s : RelayState T),
    ((drainGo vs es s).2).buf.max_cap = s.buf.max_cap := by
  intro vs
  induction vs with
  | nil => intro es s; simp [drainGo]
  | cons v vs ih =>
    intro es s
    rcases htk : takeSend es with _ | ⟨r, es'⟩
    · simp [drainGo, htk]
    · cases r
      · simp [drainGo, htk]
      · simp [drainGo, htk, ih]

theorem drainGo_len_le : ∀ (vs : List T) (es : List Event) (s : RelayState T),
    vs.length ≤ s.buf.max_cap → s.buf.inner.length ≤ s.buf.max_cap →
    ((drainGo vs es s).2).buf.inner.length ≤ ((drainGo vs es s).2).buf.max_cap := by
  intro vs
  induction vs with
  | nil => intro es s _ h2; simpa [drainGo] using h2
  | cons v vs ih =>
    intro es s h1 h2
    have h1' : vs.length ≤ s.buf.max_cap := by
      simp at h1; omega
    rcases htk : takeSend es with _ | ⟨r, es'⟩
    · simpa [drainGo, htk] using h1'
    · cases r
      · simpa [drainGo, htk] using h1'
      · simp only [drainGo, htk]
        exact ih es' _ h1' h1'

theorem drainGo_dropped : ∀ (vs : List T) (es : List Event) (s : RelayState T),
    ((drainGo vs es s).2).dropped = s.dropped ∧ (drainGo vs es s).1 ≠ some Outcome.dropped := by
  intro vs
  induction vs with
  | nil => intro es s; simp [drainGo]
  | cons v vs ih =>
    intro es s
    rcases htk : takeSend es with _ | ⟨r, es'⟩
    · simp [drainGo, htk]
    · cases r
      · simp [drainGo, htk]
      · simp [drainGo, htk, ih]

theorem drainGo_gotSink : ∀ (vs : List T) (es : List Event) (s : RelayState T),
    ((drainGo vs es s).2).gotSink = s.gotSink := by
  intro vs
  induction vs with
  | nil => intro es s; simp [drainGo]
  | cons v vs ih =>
    intro es s
    rcases htk : takeSend es with _ | ⟨r, es'⟩
    · simp [drainGo, htk]
    · cases r
      · simp [drainGo, htk]
      · simp [drainGo, htk, ih]

theorem histPend_drainGo : ∀ (vs : List T) (es : List Event) (s : RelayState T),
    s.buf.inner = vs → unissued s.inflight = [] →
    histPend ((drainGo vs es s).2) = histPend s := by
  intro vs
  induction vs with
  | nil => intro es s _ _; simp [drainGo]
  | cons v vs ih =>
    intro es s hb hu
    have hstep :
        histPend ({ s with buf := ⟨vs, s.buf.max_cap⟩, sentRev := v :: s.sentRev } : RelayState T)
          = histPend s := by
      simp [histPend, hu, hb]
    rcases htk : takeSend es with _ | ⟨r, es'⟩
    · simpa [drainGo, htk] using hstep
    · cases r
      · simpa [drainGo, htk] using hstep
      · simp only [drainGo, htk]
        exact (ih es'
          ({ s with buf := ⟨vs, s.buf.max_cap⟩, sentRev := v :: s.sentRev } : RelayState T)
          rfl hu).trans hstep

theorem drainPending_max_cap (es : List Event) (s : RelayState T) :
    ((drainPending es s).2).buf.max_cap = s.buf.max_cap := by
  unfold drainPending
  split
  · exact drainGo_max_cap _ es s
  · rcases htk : takeSend es with _ | ⟨r, es'⟩
    · simp [htk, pollFlight_buf]
    · cases r
      · simp [htk, pollFlight_buf]
      · simp only [htk]
        rw [drainGo_max_cap]
        simp [pollFlight_buf]

theorem drainPending_len_le (es : List Event) (s : RelayState T)
    (h : s.buf.inner.length ≤ s.buf.max_cap) :
    ((drainPending es s).2).buf.inner.length ≤ ((drainPending es s).2).buf.max_cap := by
  unfold drainPending
  split
  · exact drainGo_len_le _ es s h h
  · rcases htk : takeSend es with _ | ⟨r, es'⟩
    · simpa [htk, pollFlight_buf] using h
    · cases r
      · simpa [htk, pollFlight_buf] using h
      · simp only [htk]
        exact drainGo_len_le _ es' _ (by simpa [pollFlight_buf] using h)
          (by simpa [pollFlight_buf] using h)

theorem drainPending_dropped (es : List Event) (s : RelayState T) :
    ((drainPending es s).2).dropped = s.dropped ∧
      (drainPending es s).1 ≠ some Outcome.dropped := by
  unfold drainPending
  split
  · exact drainGo_dropped _ es s
  · rcases htk : takeSend es with _ | ⟨r, es'⟩
    · simp [htk, pollFlight_dropped]
    · cases r
      · simp [htk, pollFlight_dropped]
      · simp only [htk]
        have h := drainGo_dropped ((pollFlight s).buf.inner) es'
          ({ pollFlight s with inflight := none } : RelayState T)
        simpa [pollFlight_dropped] using h

theorem drainPending_gotSink (es : List Event) (s : RelayState T) :
    ((drainPending es s).2).gotSink = s.gotSink := by
  unfold drainPending
  split
  · exact drainGo_gotSink _ es s
  · rcases htk : takeSend es with _ | ⟨r, es'⟩
    · simp [htk, pollFlight_gotSink]
    · cases r
      · simp [htk, pollFlight_gotSink]
      · simp only [htk]
        rw [drainGo_gotSink]
        simp [pollFlight_gotSink]

theorem histPend_drainPending (es : List Event) (s : RelayState T) :
    histPend ((drainPending es s).2) = histPend s := by
  unfold drainPending
  split
  · rename_i hin
    exact histPend_drainGo _ es s rfl (by simp [unissued, hin])
  · rcases htk : takeSend es with _ | ⟨r, es'⟩
    · simp [htk, histPend_pollFlight]
    · cases r
      · simp only [htk]
        rw [histPend_clear_inflight _ (unissued_pollFlight s)]
        exact histPend_pollFlight s
      · simp only [htk]
        have h1 := histPend_drainGo ((pollFlight s).buf.inner) es'
          ({ pollFlight s with inflight := none } : RelayState T) rfl unissued_none
        rw [h1, histPend_clear_inflight _ (unissued_pollFlight s)]
        exact histPend_pollFlight s

/-! Facts about the streaming loop. -/

theorem inner_max_cap : ∀ (es : List Event) (s : RelayState T),
    ((inner_pipe_from_stream es s).2).buf.max_cap = s.buf.max_cap := by
  intro es
  induction es with
  | nil => intro s; rfl
  | cons e es ih =>
    intro s
    cases hc : e.closed with
    | true => simp [inner_pipe_from_stream, hc, popIntoFlight_max_cap]
    | false =>
      cases hsf : sendFires (pollFlight (popIntoFlight s)) e with
      | true =>
        simp [inner_pipe_from_stream, hc, hsf, ih, pollFlight_buf, popIntoFlight_max_cap]
      | false =>
        cases hit : e.item with
        | false =>
          simp [inner_pipe_from_stream, hc, hsf, hit, ih, pollFlight_buf, popIntoFlight_max_cap]
        | true =>
          cases hst : (pollFlight (popIntoFlight s)).stream with
          | nil =>
            simp [inner_pipe_from_stream, hc, hsf, hit, hst, drainPending_max_cap,
              pollFlight_buf, popIntoFlight_max_cap]
          | cons v rest =>
            cases hpb : (popIntoFlight s).buf.push_back v with
            | none =>
              simp [inner_pipe_from_stream, hc, hsf, hit, hst, hpb,
                pollFlight_buf, popIntoFlight_max_cap]
            | some q =>
              obtain ⟨hqi, hqc, hqlt⟩ := push_back_some hpb
              simp [inner_pipe_from_stream, hc, hsf, hit, hst, hpb, ih, hqc,
                pollFlight_buf, popIntoFlight_max_cap]

theorem inner_len_le : ∀ (es : List Event) (s : RelayState T),
    s.buf.inner.length ≤ s.buf.max_cap →
    ((inner_pipe_from_stream es s).2).buf.inner.length
      ≤ ((inner_pipe_from_stream es s).2).buf.max_cap := by
  intro es
  induction es with
  | nil => intro s h; exact h
  | cons e es ih =>
    intro s h
    have h1 : (popIntoFlight s).buf.inner.length ≤ (popIntoFlight s).buf.max_cap :=
      le_trans (popIntoFlight_len_le s) (by rw [popIntoFlight_max_cap]; exact h)
    have h2 : (pollFlight (popIntoFlight s)).buf.inner.length
        ≤ (pollFlight (popIntoFlight s)).buf.max_cap := by
      rw [pollFlight_buf]; exact h1
    cases hc : e.closed with
    | true => simpa [inner_pipe_from_stream, hc] using h1
    | false =>
      cases hsf : sendFires (pollFlight (popIntoFlight s)) e with
      | true =>
        have hr := ih ({ pollFlight (popIntoFlight s) with inflight := none }) (by simpa using h2)
        simpa [inner_pipe_from_stream, hc, hsf] using hr
      | false =>
        cases hit : e.item with
        | false =>
          have hr := ih (pollFlight (popIntoFlight s)) h2
          simpa [inner_pipe_from_stream, hc, hsf, hit] using hr
        | true =>
          cases hst : (pollFlight (popIntoFlight s)).stream with
          | nil =>
            have hr := drainPending_len_le es (pollFlight (popIntoFlight s)) h2
            simpa [inner_pipe_from_stream, hc, hsf, hit, hst] using hr
          | cons v rest =>
            cases hpb : (pollFlight (popIntoFlight s)).buf.push_back v with
            | none => simpa [inner_pipe_from_stream, hc, hsf, hit, hst, hpb] using h2
            | some q =>
              obtain ⟨hqi, hqc, hqlt⟩ := push_back_some hpb
              have hle : q.inner.length ≤ q.max_cap := by
                rw [hqi, hqc]
                simp only [List.length_append, List.length_cons, List.length_nil]
                omega
              have hr := ih ({ pollFlight (popIntoFlight s) with buf := q, stream := rest }) hle
              simpa [inner_pipe_from_stream, hc, hsf, hit, hst, hpb] using hr

theorem histPend_inner : ∀ (es : List Event) (s : RelayState T),
    histPend ((inner_pipe_from_stream es s).2) = histPend s := by
  intro es
  induction es with
  | nil => intro s; rfl
  | cons e es ih =>
    intro s
    have hps : histPend (pollFlight (popIntoFlight s)) = histPend s :=
      (histPend_pollFlight _).trans (histPend_popIntoFlight s)
    cases hc : e.closed with
    | true => simp [inner_pipe_from_stream, hc, histPend_popIntoFlight]
    | false =>
      cases hsf : sendFires (pollFlight (popIntoFlight s)) e with
      | true =>
        have hcl := histPend_clear_inflight (pollFlight (popIntoFlight s))
          (unissued_pollFlight _)
        simp [inner_pipe_from_stream, hc, hsf]
        rw [ih, hcl, hps]
      | false =>
        cases hit : e.item with
        | false =>
          simp [inner_pipe_from_stream, hc, hsf, hit]
          rw [ih, hps]
        | true =>
          cases hst : (pollFlight (popIntoFlight s)).stream with
          | nil =>
            simp [inner_pipe_from_stream, hc, hsf, hit, hst]
            rw [histPend_drainPending, hps]
          | cons v rest =>
            cases hpb : (pollFlight (popIntoFlight s)).buf.push_back v with
            | none =>
              simp [inner_pipe_from_stream, hc, hsf, hit, hst, hpb]
              rw [← hps]
              simp [histPend, hst]
            | some q =>
              obtain ⟨hqi, hqc, hqlt⟩ := push_back_some hpb
              simp [inner_pipe_from_stream, hc, hsf, hit, hst, hpb]
              rw [ih, ← hps]
              simp [histPend, hqi, hst]

theorem inner_dropped : ∀ (es : List Event) (s : RelayState T),
    ((inner_pipe_from_stream es s).2).dropped
      = s.dropped + (if (inner_pipe_from_stream es s).1 = some Outcome.dropped then 1 else 0) := by
  intro es
  induction es with
  | nil => intro s; simp [inner_pipe_from_stream]
  | cons e es ih =>
    intro s
    have hpd : (pollFlight (popIntoFlight s)).dropped = s.dropped :=
      (pollFlight_dropped _).trans (popIntoFlight_dropped s)
    cases hc : e.closed with
    | true => simp [inner_pipe_from_stream, hc, popIntoFlight_dropped]
    | false =>
      cases hsf : sendFires (pollFlight (popIntoFlight s)) e with
      | true => simp [inner_pipe_from_stream, hc, hsf, ih, hpd]
      | false =>
        cases hit : e.item with
        | false => simp [inner_pipe_from_stream, hc, hsf, hit, ih, hpd]
        | true =>
          cases hst : (pollFlight (popIntoFlight s)).stream with
          | nil =>
            obtain ⟨hd1, hd2⟩ := drainPending_dropped es (pollFlight (popIntoFlight s))
            simp [inner_pipe_from_stream, hc, hsf, hit, hst, hd1, hd2, hpd]
          | cons v rest =>
            cases hpb : (pollFlight (popIntoFlight s)).buf.push_back v with
            | none => simp [inner_pipe_from_stream, hc, hsf, hit, hst, hpb, hpd]
            | some q => simp [inner_pipe_from_stream, hc, hsf, hit, hst, hpb, ih, hpd]

theorem inner_gotSink : ∀ (es : List Event) (s : RelayState T),
    ((inner_pipe_from_stream es s).2).gotSink = s.gotSink := by
  intro es
  induction es with
  | nil => intro s; rfl
  | cons e es ih =>
    intro s
    have hpg : (pollFlight (popIntoFlight s)).gotSink = s.gotSink :=
      (pollFlight_gotSink _).trans (popIntoFlight_gotSink s)
    cases hc : e.closed with
    | true => simp [inner_pipe_from_stream, hc, popIntoFlight_gotSink]
    | false =>
      cases hsf : sendFires (pollFlight (popIntoFlight s)) e with
      | true => simp [inner_pipe_from_stream, hc, hsf, ih, hpg]
      | false =>
        cases hit : e.item with
        | false => simp [inner_pipe_from_stream, hc, hsf, hit, ih, hpg]
        | true =>
          cases hst : (pollFlight (popIntoFlight s)).stream with
          | nil =>
            simp [inner_pipe_from_stream, hc, hsf, hit, hst, drainPending_gotSink, hpg]
          | cons v rest =>
            cases hpb : (pollFlight (popIntoFlight s)).buf.push_back v with
            | none => simp [inner_pipe_from_stream, hc, hsf, hit, hst, hpb, hpg]
            | some q => simp [inner_pipe_from_stream, hc, hsf, hit, hst, hpb, ih, hpg]

/-! Facts about the pre-handshake loop. -/

theorem accept_max_cap : ∀ (es : List Event) (s : RelayState T),
    ((acceptLoop es s).2).buf.max_cap = s.buf.max_cap := by
  intro es
  induction es with
  | nil => intro s; rfl
  | cons e es ih =>
    intro s
    rcases hac : e.accept with _ | b
    · cases hit : e.item with
      | false => simp [acceptLoop, hac, hit, ih]
      | true =>
        cases hst : s.stream with
        | nil => simp [acceptLoop, hac, hit, hst]
        | cons v rest =>
          cases hpb : s.buf.push_back v with
          | none => simp [acceptLoop, hac, hit, hst, hpb]
          | some q =>
            obtain ⟨hqi, hqc, hqlt⟩ := push_back_some hpb
            simp [acceptLoop, hac, hit, hst, hpb, ih, hqc]
    · cases b
      · simp [acceptLoop, hac]
      · simp [acceptLoop, hac, inner_max_cap]

theorem accept_len_le : ∀ (es : List Event) (s : RelayState T),
    s.buf.inner.length ≤ s.buf.max_cap →
    ((acceptLoop es s).2).buf.inner.length ≤ ((acceptLoop es s).2).buf.max_cap := by
  intro es
  induction es with
  | nil => intro s h; exact h
  | cons e es ih =>
    intro s h
    rcases hac : e.accept with _ | b
    · cases hit : e.item with
      | false =>
        have hr := ih s h
        simpa [acceptLoop, hac, hit] using hr
      | true =>
        cases hst : s.stream with
        | nil => simpa [acceptLoop, hac, hit, hst] using h
        | cons v rest =>
          cases hpb : s.buf.push_back v with
          | none => simpa [acceptLoop, hac, hit, hst, hpb] using h
          | some q =>
            obtain ⟨hqi, hqc, hqlt⟩ := push_back_some hpb
            have hle : q.inner.length ≤ q.max_cap := by
              rw [hqi, hqc]
              simp only [List.length_append, List.length_cons, List.length_nil]
              omega
            have hr := ih ({ s with buf := q, stream := rest }) hle
            simpa [acceptLoop, hac, hit, hst, hpb] using hr
    · cases b
      · simpa [acceptLoop, hac] using h
      · have hr := inner_len_le es ({ s with gotSink := true }) (by simpa using h)
        simpa [acceptLoop, hac] using hr

theorem histPend_accept : ∀ (es : List Event) (s : RelayState T),
    histPend ((acceptLoop es s).2) = histPend s := by
  intro es
  induction es with
  | nil => intro s; rfl
  | cons e es ih =>
    intro s
    rcases hac : e.accept with _ | b
    · cases hit : e.item with
      | false =>
        simp [acceptLoop, hac, hit]
        rw [ih]
      | true =>
        cases hst : s.stream with
        | nil => simp [acceptLoop, hac, hit, hst]
        | cons v rest =>
          cases hpb : s.buf.push_back v with
          | none => simp [acceptLoop, hac, hit, hst, hpb, histPend]
          | some q =>
            obtain ⟨hqi, hqc, hqlt⟩ := push_back_some hpb
            simp [acceptLoop, hac, hit, hst, hpb]
            rw [ih]
            simp [histPend, hqi, hst]
    · cases b
      · simp [acceptLoop, hac]
      · simp [acceptLoop, hac]
        rw [histPend_inner]
        simp [histPend]

theorem accept_dropped : ∀ (es : List Event) (s : RelayState T),
    ((acceptLoop es s).2).dropped
      = s.dropped + (if (acceptLoop es s).1 = some Outcome.dropped then 1 else 0) := by
  intro es
  induction es with
  | nil => intro s; simp [acceptLoop]
  | cons e es ih =>
    intro s
    rcases hac : e.accept with _ | b
    · cases hit : e.item with
      | false => simp [acceptLoop, hac, hit, ih]
      | true =>
        cases hst : s.stream with
        | nil => simp [acceptLoop, hac, hit, hst]
        | cons v rest =>
          cases hpb : s.buf.push_back v with
          | none => simp [acceptLoop, hac, hit, hst, hpb]
          | some q => simp [acceptLoop, hac, hit, hst, hpb, ih]
    · cases b
      · simp [acceptLoop, hac]
      · simp [acceptLoop, hac, inner_dropped]

theorem accept_sentRev_no_sink : ∀ (es : List Event) (s : RelayState T),
    ((acceptLoop es s).2).gotSink = false → ((acceptLoop es s).2).sentRev = s.sentRev := by
  intro es
  induction es with
  | nil => intro s _; rfl
  | cons e es ih =>
    intro s hg
    rcases hac : e.accept with _ | b
    · cases hit : e.item with
      | false =>
        rw [show acceptLoop (e :: es) s = acceptLoop es s by simp [acceptLoop, hac, hit]] at hg ⊢
        exact ih s hg
      | true =>
        cases hst : s.stream with
        | nil => simp [acceptLoop, hac, hit, hst]
        | cons v rest =>
          cases hpb : s.buf.push_back v with
          | none => simp [acceptLoop, hac, hit, hst, hpb]
          | some q =>
            rw [show acceptLoop (e :: es) s
                = acceptLoop es ({ s with buf := q, stream := rest }) by
              simp [acceptLoop, hac, hit, hst, hpb]] at hg ⊢
            exact ih _ hg
    · cases b
      · simp [acceptLoop, hac]
      · rw [show acceptLoop (e :: es) s
            = inner_pipe_from_stream es ({ s with gotSink := true }) by
          simp [acceptLoop, hac]] at hg
        rw [inner_gotSink] at hg
        simp at hg

/-! Reduction helpers for concrete loop steps. -/

theorem pop_front_nil (q : BoundedVecDeque T) (h : q.inner = []) : q.pop_front = none := by
  simp [BoundedVecDeque.pop_front, h]

theorem popIntoFlight_none_nil (s : RelayState T)
    (h1 : s.inflight = none) (h2 : s.buf.inner = []) : popIntoFlight s = s := by
  simp [popIntoFlight, pop_front_nil s.buf h2, h1]

theorem popIntoFlight_cons (s : RelayState T) (x : T) (xs : List T)
    (h1 : s.inflight = none) (h2 : s.buf.inner = x :: xs) :
    popIntoFlight s
      = { s with buf := ⟨xs, s.buf.max_cap⟩, inflight := some (x, false) } := by
  simp [popIntoFlight, BoundedVecDeque.pop_front, h1, h2]

theorem popIntoFlight_some (s : RelayState T) (p : T × Bool)
    (h : s.inflight = some p) : popIntoFlight s = s := by
  rcases hpf : s.buf.pop_front with _ | q
  · simp [popIntoFlight, h, hpf]
  · simp [popIntoFlight, h, hpf]

theorem pollFlight_none (s : RelayState T) (h : s.inflight = none) : pollFlight s = s := by
  simp [pollFlight, h]

theorem pollFlight_some_true (s : RelayState T) (x : T)
    (h : s.inflight = some (x, true)) : pollFlight s = s := by
  simp [pollFlight, h]

/-! The drain phase never reads the close-signal field of the schedule. -/

theorem takeSend_withClose : ∀ (es : List Event),
    takeSend (es.map withClose)
      = Option.map (fun p => (p.1, p.2.map withClose)) (takeSend es) := by
  intro es
  induction es with
  | nil => rfl
  | cons e es ih =>
    rcases hse : e.send with _ | r
    · simp [takeSend, withClose, hse, ih]
    · simp [takeSend, withClose, hse]

theorem drainGo_withClose : ∀ (vs : List T) (es : List Event) (s : RelayState T),
    drainGo vs (es.map withClose) s = drainGo vs es s := by
  intro vs
  induction vs with
  | nil => intro es s; rfl
  | cons v vs ih =>
    intro es s
    rcases htk : takeSend es with _ | ⟨r, es'⟩
    · simp [drainGo, takeSend_withClose, htk]
    · cases r
      · simp [drainGo, takeSend_withClose, htk]
      · simp [drainGo, takeSend_withClose, htk, ih]

/-! Draining a buffer against a schedule of successful send completions. -/

theorem takeSend_sendOk (es : List Event) : takeSend (sendOkEv :: es) = some (true, es) := rfl

theorem drainGo_replicate : ∀ (vs : List T) (s : RelayState T),
    (drainGo vs (List.replicate vs.length sendOkEv) s).1 = some Outcome.completed
      ∧ (drainGo vs (List.replicate vs.length sendOkEv) s).2.sentRev
          = vs.reverse ++ s.sentRev := by
  intro vs
  induction vs with
  | nil => intro s; simp [drainGo]
  | cons v vs ih =>
    intro s
    have htk : takeSend (List.replicate (v :: vs).length sendOkEv)
        = some (true, List.replicate vs.length sendOkEv) := by
      simp only [List.length_cons, List.replicate_succ]
      exact takeSend_sendOk _
    simp only [drainGo, htk]
    refine ⟨(ih _).1, ?_⟩
    rw [(ih _).2]
    simp

/-! The claims. -/

/-- C1: for every produced item sequence and every interleaving of producer
readiness, send completion and close-signal readiness, the sequence of items
the relay delivers to the sink via `sink.send` is a prefix of the produced
sequence - in particular an order-preserving subsequence with no reordering
and no duplication. -/
theorem c1_delivered_in_order (T : Type) (events : List Event) (produced : List T) :
    ∃ rest, ((pipe_from_stream events produced).2).sentRev.reverse ++ rest = produced := by
  have h := histPend_accept events (initState produced)
  have h0 : histPend (initState produced) = produced := by
    simp [histPend, initState, BoundedVecDeque.new, unissued_none]
  refine ⟨unissued ((pipe_from_stream events produced).2).inflight
    ++ (((pipe_from_stream events produced).2).buf.inner
      ++ ((pipe_from_stream events produced).2).stream), ?_⟩
  show histPend ((pipe_from_stream events produced).2) = produced
  rw [pipe_from_stream]
  exact h.trans h0

/-- C2: the queue length never exceeds the capacity at any point of any
execution: a `push_back` on a full queue returns an error without mutating,
and from any state satisfying the bound, every run of the streaming loop, the
pre-handshake loop, and the whole relay preserves it (capacity 16 for the
relay's own queue). -/
theorem c2_capacity_invariant :
    (∀ (q : BoundedVecDeque Nat) (x : Nat),
      q.max_cap ≤ q.inner.length → q.push_back x = none)
    ∧ (∀ (es : List Event) (s : RelayState Nat),
      s.buf.inner.length ≤ s.buf.max_cap →
      ((inner_pipe_from_stream es s).2).buf.inner.length
        ≤ ((inner_pipe_from_stream es s).2).buf.max_cap)
    ∧ (∀ (es : List Event) (s : RelayState Nat),
      s.buf.inner.length ≤ s.buf.max_cap →
      ((acceptLoop es s).2).buf.inner.length ≤ ((acceptLoop es s).2).buf.max_cap)
    ∧ (∀ (events : List Event) (produced : List Nat),
      ((pipe_from_stream events produced).2).buf.inner.length ≤ 16) := by
  refine ⟨push_back_full, inner_len_le, accept_len_le, ?_⟩
  intro events produced
  have h1 := accept_len_le events (initState produced)
    (by simp [initState, BoundedVecDeque.new])
  have h2 := accept_max_cap events (initState produced)
  have h3 : ((initState produced : RelayState Nat)).buf.max_cap = 16 := rfl
  unfold pipe_from_stream
  omega

/-- Witness for C2: the general statements evaluated at concrete inputs. -/
theorem c2_capacity_invariant_witness :
    (BoundedVecDeque.push_back ⟨List.range 16, 16⟩ 99 = none)
    ∧ (((inner_pipe_from_stream [itemEv] (initState [5])).2).buf.inner.length
        ≤ ((inner_pipe_from_stream [itemEv] (initState [5])).2).buf.max_cap)
    ∧ (((acceptLoop [itemEv] (initState [5])).2).buf.inner.length
        ≤ ((acceptLoop [itemEv] (initState [5])).2).buf.max_cap)
    ∧ (((pipe_from_stream [acceptEv, itemEv] [5]).2).buf.inner.length ≤ 16) :=
  ⟨c2_capacity_invariant.1 ⟨List.range 16, 16⟩ 99 (by decide),
   c2_capacity_invariant.2.1 [itemEv] (initState [5]) (by decide),
   c2_capacity_invariant.2.2.1 [itemEv] (initState [5]) (by decide),
   c2_capacity_invariant.2.2.2 [acceptEv, itemEv] [5]⟩

/-- C3 counterexample: with the handshake resolving immediately and a sink
that never completes a send, the arrival of the 17th produced item does NOT
terminate the relay (one item was popped into the in-flight send, so only 16
remain buffered); the relay is still running after 17 items, and only the
18th item triggers the drop. -/
theorem c3_seventeenth_item_cex :
    ((pipe_from_stream (acceptEv :: List.replicate 17 itemEv) (List.range 32)).1 = none)
    ∧ ((pipe_from_stream (acceptEv :: List.replicate 17 itemEv) (List.range 32)).2.stream.length
        = 15)
    ∧ ((pipe_from_stream (acceptEv :: List.replicate 18 itemEv) (List.range 32)).1
        = some Outcome.dropped) := by
  decide

/-- C3 amended: with capacity 16 and a sink that never completes a send, if
the handshake has not resolved, the 17th produced item triggers the dropped
outcome with exactly one metric increment; if the handshake resolves first,
the first item is popped into the in-flight send, so 17 items are not enough
and the 18th item triggers the drop, again with exactly one metric increment
and with exactly one item ever issued to the sink. -/
theorem c3_drop_determinism_amended :
    (((pipe_from_stream (List.replicate 16 itemEv) (List.range 32)).1 = none)
      ∧ ((pipe_from_stream (List.replicate 17 itemEv) (List.range 32)).1
          = some Outcome.dropped)
      ∧ ((pipe_from_stream (List.replicate 17 itemEv) (List.range 32)).2.dropped = 1))
    ∧ (((pipe_from_stream (acceptEv :: List.replicate 17 itemEv) (List.range 32)).1 = none)
      ∧ ((pipe_from_stream (acceptEv :: List.replicate 18 itemEv) (List.range 32)).1
          = some Outcome.dropped)
      ∧ ((pipe_from_stream (acceptEv :: List.replicate 18 itemEv) (List.range 32)).2.dropped = 1)
      ∧ ((pipe_from_stream (acceptEv :: List.replicate 18 itemEv) (List.range 32)).2.sentRev
          = [0])) := by
  decide

/-- C4: if the producer ends with K buffered items (K at most 16), the close
signal never fires and every send succeeds, the relay issues all K buffered
items to the sink in FIFO order, awaiting each send (the schedule supplies
exactly one completion per item), and terminates in the completed outcome. -/
theorem c4_drain_completeness (s : RelayState Nat)
    (hstream : s.stream = []) (hin : s.inflight = none)
    (_hcap : s.buf.inner.length ≤ 16) :
    ((inner_pipe_from_stream (itemEv :: List.replicate s.buf.inner.length sendOkEv) s).1
        = some Outcome.completed)
    ∧ ((inner_pipe_from_stream
        (itemEv :: List.replicate s.buf.inner.length sendOkEv) s).2).sentRev.reverse
        = s.sentRev.reverse ++ s.buf.inner := by
  rcases hb : s.buf.inner with _ | ⟨v, vs⟩
  · have hrun : inner_pipe_from_stream [itemEv] s = (some Outcome.completed, s) := by
      simp [inner_pipe_from_stream, popIntoFlight_none_nil s hin hb, pollFlight_none s hin,
        sendFires, hin, itemEv, hstream, drainPending, drainGo, hb]
    simp [hb, hrun]
  · have hpop : popIntoFlight s = (⟨⟨vs, s.buf.max_cap⟩, [], some (v, false), s.sentRev, s.dropped, s.gotSink⟩ : RelayState Nat) := by
      rw [popIntoFlight_cons s v vs hin hb, hstream]
    have hpoll : pollFlight (⟨⟨vs, s.buf.max_cap⟩, [], some (v, false), s.sentRev, s.dropped, s.gotSink⟩ : RelayState Nat) = (⟨⟨vs, s.buf.max_cap⟩, [], some (v, true), v :: s.sentRev, s.dropped, s.gotSink⟩ : RelayState Nat) := by
      simp [pollFlight]
    have hstep : inner_pipe_from_stream (itemEv :: List.replicate (vs.length + 1) sendOkEv) s = drainPending (List.replicate (vs.length + 1) sendOkEv) (⟨⟨vs, s.buf.max_cap⟩, [], some (v, true), v :: s.sentRev, s.dropped, s.gotSink⟩ : RelayState Nat) := by
      simp [inner_pipe_from_stream, hpop, hpoll, sendFires, itemEv]
    have hdp : drainPending (List.replicate (vs.length + 1) sendOkEv) (⟨⟨vs, s.buf.max_cap⟩, [], some (v, true), v :: s.sentRev, s.dropped, s.gotSink⟩ : RelayState Nat) = drainGo vs (List.replicate vs.length sendOkEv) (⟨⟨vs, s.buf.max_cap⟩, [], none, v :: s.sentRev, s.dropped, s.gotSink⟩ : RelayState Nat) := by
      simp [drainPending, pollFlight, List.replicate_succ, takeSend, sendOkEv]
    have hgo := drainGo_replicate vs (⟨⟨vs, s.buf.max_cap⟩, [], none, v :: s.sentRev, s.dropped, s.gotSink⟩ : RelayState Nat)
    simp only [hb, List.length_cons]
    rw [hstep, hdp]
    refine ⟨hgo.1, ?_⟩
    rw [hgo.2]
    simp

/-- Witness for C4: draining three buffered items. -/
theorem c4_drain_completeness_witness :
    ((inner_pipe_from_stream
        (itemEv :: List.replicate drainDemoState.buf.inner.length sendOkEv) drainDemoState).1
        = some Outcome.completed)
    ∧ ((inner_pipe_from_stream
        (itemEv :: List.replicate drainDemoState.buf.inner.length sendOkEv)
        drainDemoState).2).sentRev.reverse
        = drainDemoState.sentRev.reverse ++ drainDemoState.buf.inner :=
  c4_drain_completeness drainDemoState rfl rfl (by decide)

/-- C5 counterexample: in the streaming phase a send that completes with an
error does not make the relay return a fatal outcome - the result is
discarded, the relay keeps running, buffers the next item and issues its
send (items 5 and then 6 are both issued; no terminal outcome is reached). -/
theorem c5_send_failure_cex :
    ((pipe_from_stream [acceptEv, itemEv, sendErrEv, itemEv, idleEv] [5, 6]).1 = none)
    ∧ ((pipe_from_stream [acceptEv, itemEv, sendErrEv, itemEv, idleEv] [5, 6]).2.sentRev
        = [6, 5])
    ∧ ((pipe_from_stream [acceptEv, itemEv, sendErrEv, itemEv, idleEv] [5, 6]).2.dropped
        = 0) := by
  decide

/-- C5 amended: when the in-flight delivery completes in the streaming phase,
the relay ignores the result entirely: for either result it clears the
in-flight slot and continues the loop (send failures terminate the relay only
in the drain phase). -/
theorem c5_send_result_ignored (T : Type) (es : List Event) (s : RelayState T)
    (x : T) (r : Bool) (h : s.inflight = some (x, true)) :
    inner_pipe_from_stream (⟨none, false, some r, false⟩ :: es) s
      = inner_pipe_from_stream es ({ s with inflight := none }) := by
  simp [inner_pipe_from_stream, popIntoFlight_some s (x, true) h,
    pollFlight_some_true s x h, sendFires, h]

/-- Witness for C5: a failed send with in-flight item 9. -/
theorem c5_send_result_ignored_witness :
    inner_pipe_from_stream [⟨none, false, some false, false⟩] flightDemoState
      = inner_pipe_from_stream [] ({ flightDemoState with inflight := none }) :=
  c5_send_result_ignored Nat [] flightDemoState 9 false rfl

/-- C6 counterexample: the producer ends before the handshake resolves while
item 7 is buffered; the handshake would resolve at the very next await point,
yet the relay terminates immediately at the stream end, never obtains the
sink, and delivers nothing - it does not wait for the handshake. -/
theorem c6_wait_for_handshake_cex :
    ((pipe_from_stream [itemEv, itemEv, acceptEv] [7]).1 = some Outcome.endedBeforeAccept)
    ∧ ((pipe_from_stream [itemEv, itemEv, acceptEv] [7]).2.gotSink = false)
    ∧ ((pipe_from_stream [itemEv, itemEv, acceptEv] [7]).2.sentRev = [])
    ∧ ((pipe_from_stream [itemEv, itemEv, acceptEv] [7]).2.buf.inner = [7]) := by
  decide

/-- C6 amended: if the producer stream is closed or exhausted before the
handshake resolves, the relay returns immediately through the catch-all arm
(the same arm as a failed handshake), without waiting for the handshake;
buffered items are discarded and never delivered. -/
theorem c6_ended_before_accept (T : Type) (es : List Event) (e : Event) (s : RelayState T)
    (ha : e.accept = none) (hi : e.item = true) (hs : s.stream = []) :
    acceptLoop (e :: es) s = (some Outcome.endedBeforeAccept, s) := by
  simp [acceptLoop, ha, hi, hs]

/-- Witness for C6: stream already empty, one buffered item, handshake still
pending. -/
theorem c6_ended_before_accept_witness :
    acceptLoop [itemEv] (⟨⟨[3], 16⟩, [], none, [], 0, false⟩ : RelayState Nat)
      = (some Outcome.endedBeforeAccept, ⟨⟨[3], 16⟩, [], none, [], 0, false⟩) :=
  c6_ended_before_accept Nat [] itemEv ⟨⟨[3], 16⟩, [], none, [], 0, false⟩ rfl rfl rfl

/-- C7 counterexample: the close signal is ready at both drain-phase await
points (while item 2 is still buffered), yet the relay completes the drain,
issues the remaining send and terminates in the completed outcome instead of
aborting with the cancelled outcome. -/
theorem c7_close_mid_drain_cex :
    ((pipe_from_stream [acceptEv, itemEv, itemEv, itemEv, sendOkClosedEv, sendOkClosedEv]
        [1, 2]).1 = some Outcome.completed)
    ∧ ((pipe_from_stream [acceptEv, itemEv, itemEv, itemEv, sendOkClosedEv, sendOkClosedEv]
        [1, 2]).2.sentRev = [2, 1]) := by
  decide

/-- C7 amended: the drain phase never polls the close signal: the drain's
behavior is identical on any schedule and on the same schedule with the close
signal forced ready at every await point, so a close observed mid-drain
aborts nothing; the drain stops early only on a send failure. -/
theorem c7_drain_ignores_close (T : Type) (es : List Event) (s : RelayState T) :
    drainPending (es.map withClose) s = drainPending es s := by
  rcases hin : s.inflight with _ | p
  · simp [drainPending, hin, drainGo_withClose]
  · rcases htk : takeSend es with _ | ⟨r, es'⟩
    · simp [drainPending, hin, takeSend_withClose, htk]
    · cases r
      · simp [drainPending, hin, takeSend_withClose, htk]
      · simp [drainPending, hin, takeSend_withClose, htk, drainGo_withClose]

/-- C8: in the streaming phase the close signal wins over producer and
delivery readiness at every multiplexed wait: if the close signal fires while
items are buffered and no delivery is in flight - even if the send future and
the producer are simultaneously ready - the relay terminates cancelled and no
further item is ever issued to the sink. -/
theorem c8_close_priority (es : List Event) (e : Event) (s : RelayState Nat)
    (_hbuf : s.buf.inner ≠ []) (_hin : s.inflight = none) (hc : e.closed = true) :
    ((inner_pipe_from_stream (e :: es) s).1 = some Outcome.cancelled)
    ∧ ((inner_pipe_from_stream (e :: es) s).2).sentRev = s.sentRev := by
  simp [inner_pipe_from_stream, hc, popIntoFlight_sentRev]

/-- Witness for C8: close, send completion and a producer item all ready at
once, with item 4 buffered and nothing in flight. -/
theorem c8_close_priority_witness :
    ((inner_pipe_from_stream [⟨none, true, some true, true⟩] closeDemoState).1
        = some Outcome.cancelled)
    ∧ ((inner_pipe_from_stream [⟨none, true, some true, true⟩] closeDemoState).2).sentRev
        = closeDemoState.sentRev :=
  c8_close_priority [] ⟨none, true, some true, true⟩ closeDemoState (by decide) rfl rfl

/-- C9: over every execution of the whole relay, the drop metric is
incremented exactly once when the relay terminates with the dropped outcome
(a rejected queue push, in either phase) and never otherwise. -/
theorem c9_drop_metric_once (T : Type) (events : List Event) (produced : List T) :
    ((pipe_from_stream events produced).2).dropped
      = (if (pipe_from_stream events produced).1 = some Outcome.dropped then 1 else 0) := by
  have h := accept_dropped events (initState produced)
  simpa [pipe_from_stream, initState] using h

/-- C10: if the relay terminates dropped without ever having obtained the
sink (the queue overflowed before the handshake resolved), then no item was
ever issued to the sink. -/
theorem c10_no_sink_no_sends (T : Type) (events : List Event) (produced : List T)
    (_hdrop : (pipe_from_stream events produced).1 = some Outcome.dropped)
    (hsink : ((pipe_from_stream events produced).2).gotSink = false) :
    ((pipe_from_stream events produced).2).sentRev = [] := by
  have h := accept_sentRev_no_sink events (initState produced) hsink
  simpa [pipe_from_stream, initState] using h

/-- Witness for C10: seventeen items arrive before the handshake; the queue
overflows pre-handshake and nothing is ever sent. -/
theorem c10_no_sink_no_sends_witness :
    ((pipe_from_stream (List.replicate 17 itemEv) (List.range 32)).2).sentRev = [] :=
  c10_no_sink_no_sends Nat (List.replicate 17 itemEv) (List.range 32)
    (by decide) (by decide)

end RpcUtils
